import Mathlib

/-!
Verification of the hexagonal game-of-life engine in `hex_game_of_life.py`.

The engine keeps a dictionary of hexagon cells indexed by integer grid
coordinates `(x, y)`.  Each cell stores an integer state (0 = dead,
1 = alive) and a cached count of live neighbours.  The state setter
(`Hexagon.state`) propagates the state delta to the cached counts of all
(wrap-adjusted) neighbours; `Grid.update` collects the cells that must flip
and then commits the flips; `Grid.wrap_coords` wraps coordinates at the
grid bounds; `Grid.max_y_coord` forces an odd maximal row index.

All definitions below are translated from the Python source
(`hex_game_of_life.py`, with the older draft `hex_game_of_life.py.py`
embedded separately where a claim mentions it).
-/

namespace HexLife

/-- `Grid.wrap_coords`, one coordinate (main file): `x > max → 0`,
`x < 0 → max`, otherwise unchanged; the `x > max` branch is tested first. -/
def wrap1 (m v : ℤ) : ℤ :=
  if m < v then 0 else if v < 0 then m else v

/-- `Grid.wrap_coords` of the older draft `hex_game_of_life.py.py`,
one coordinate: tests `x < 0` first, then `x > max`. -/
def wrap1Old (m v : ℤ) : ℤ :=
  if v < 0 then m else if m < v then 0 else v

/-- `Grid.wrap_coords` on a coordinate pair (main file). -/
def wrapP (mx my : ℤ) (p : ℤ × ℤ) : ℤ × ℤ :=
  (wrap1 mx p.1, wrap1 my p.2)

/-- `Grid.wrap_coords` on a coordinate pair (older draft). -/
def wrapPOld (mx my : ℤ) (p : ℤ × ℤ) : ℤ × ℤ :=
  (wrap1Old mx p.1, wrap1Old my p.2)

/-- The coordinate offsets of `Hexagon.neighbours` in the main file:
rows with `y % 2 == 1` use the first table, rows with `y % 2 == 0` the
second, exactly as in the source. -/
def deltas (par : ℤ) : List (ℤ × ℤ) :=
  if par = 1 then
    [(-1, 0), (0, -1), (0, 1), (1, -1), (1, 0), (1, 1)]
  else
    [(-1, -1), (-1, 0), (-1, 1), (0, -1), (0, 1), (1, 0)]

/-- The `neighbour_indices` list built by `Hexagon.neighbours` (main file)
before any wrapping is applied. -/
def rawNeighbours (p : ℤ × ℤ) : List (ℤ × ℤ) :=
  (deltas (p.2 % 2)).map (fun d => (p.1 + d.1, p.2 + d.2))

/-- The wrapped neighbour list used by `Hexagon.neighbours`:
`wrap_coords` applied to each raw neighbour index. -/
def nbrsList (mx my : ℤ) (p : ℤ × ℤ) : List (ℤ × ℤ) :=
  (rawNeighbours p).map (wrapP mx my)

/-- A coordinate pair addresses an existing hexagon of the grid. -/
def inBounds (mx my : ℤ) (p : ℤ × ℤ) : Prop :=
  0 ≤ p.1 ∧ p.1 ≤ mx ∧ 0 ≤ p.2 ∧ p.2 ≤ my

instance (mx my : ℤ) (p : ℤ × ℤ) : Decidable (inBounds mx my p) := by
  unfold inBounds; infer_instance

lemma wrap1_bounds (m v : ℤ) (hm : 0 ≤ m) : 0 ≤ wrap1 m v ∧ wrap1 m v ≤ m := by
  unfold wrap1; split_ifs <;> omega

/-- One-coordinate wrap symmetry: for in-bounds `a, b` and a shift of at
most one step (`a - 1 ≤ x ≤ a + 1`, with `x + x' = a + b`),
`wrap1 m x = b` holds exactly when `wrap1 m x' = a` does. -/
lemma wrap1_eq_symm (m a b x x' : ℤ) (hm : 0 ≤ m)
    (ha0 : 0 ≤ a) (ha1 : a ≤ m) (hb0 : 0 ≤ b) (hb1 : b ≤ m)
    (hsum : x + x' = a + b) (hx0 : a - 1 ≤ x) (hx1 : x ≤ a + 1) :
    wrap1 m x = b ↔ wrap1 m x' = a := by
  unfold wrap1; split_ifs <;> omega

/-- Wrapping in the `y` direction preserves row parity when the maximal
row index is odd. -/
lemma wrap1_parity (m y : ℤ) (hm : 1 ≤ m) (hodd : m % 2 = 1)
    (hy0 : -1 ≤ y) (hy1 : y ≤ m + 1) :
    wrap1 m y % 2 = y % 2 := by
  unfold wrap1; split_ifs <;> omega

/-- Pair-level wrap symmetry, stated with explicit shifted coordinates so
it can be instantiated at the syntactic forms occurring in neighbour
lists. -/
lemma wrapP_eq_symm (mx my a b c d x y x' y' : ℤ)
    (hmx : 0 ≤ mx) (hmy : 0 ≤ my)
    (ha0 : 0 ≤ a) (ha1 : a ≤ mx) (hb0 : 0 ≤ b) (hb1 : b ≤ my)
    (hc0 : 0 ≤ c) (hc1 : c ≤ mx) (hd0 : 0 ≤ d) (hd1 : d ≤ my)
    (hxs : x + x' = a + c) (hx0 : a - 1 ≤ x) (hx1 : x ≤ a + 1)
    (hys : y + y' = b + d) (hy0 : b - 1 ≤ y) (hy1 : y ≤ b + 1) :
    ((c, d) = wrapP mx my (x, y)) ↔ ((a, b) = wrapP mx my (x', y')) := by
  simp only [wrapP, Prod.mk.injEq]
  constructor
  · rintro ⟨h1, h2⟩
    exact ⟨((wrap1_eq_symm mx a c x x' hmx ha0 ha1 hc0 hc1 hxs hx0 hx1).mp h1.symm).symm,
           ((wrap1_eq_symm my b d y y' hmy hb0 hb1 hd0 hd1 hys hy0 hy1).mp h2.symm).symm⟩
  · rintro ⟨h1, h2⟩
    refine ⟨?_, ?_⟩
    · exact ((wrap1_eq_symm mx a c x x' hmx ha0 ha1 hc0 hc1 hxs hx0 hx1).mpr h1.symm).symm
    · exact ((wrap1_eq_symm my b d y y' hmy hb0 hb1 hd0 hd1 hys hy0 hy1).mpr h2.symm).symm

/-- A wrapped neighbour index whose row parity differs from `d`'s cannot
equal `(c, d)` (odd maximal row index). -/
lemma ind_parity_zero (mx my c d x y : ℤ) (hmy : 1 ≤ my) (hodd : my % 2 = 1)
    (hy0 : -1 ≤ y) (hy1 : y ≤ my + 1) (hpar : y % 2 ≠ d % 2) :
    (if (c, d) = wrapP mx my (x, y) then (1 : ℕ) else 0) = 0 := by
  rw [if_neg]
  intro h
  simp only [wrapP, Prod.mk.injEq] at h
  have h2 := h.2
  have := wrap1_parity my y hmy hodd hy0 hy1
  omega

/-- Indicator form of `ind_parity_zero`, oriented the way `List.count`
unfolds. -/
lemma ind_zero (mx my c d x y : ℤ) (hmy : 1 ≤ my) (hodd : my % 2 = 1)
    (hy0 : -1 ≤ y) (hy1 : y ≤ my + 1) (hpar : y % 2 ≠ d % 2) :
    (if wrapP mx my (x, y) = (c, d) then (1 : ℕ) else 0) = 0 := by
  rw [if_neg]
  intro h
  simp only [wrapP, Prod.mk.injEq] at h
  have h2 := h.2
  have := wrap1_parity my y hmy hodd hy0 hy1
  omega

/-- Indicator form of `wrapP_eq_symm`: matching neighbour indicators of two
in-bounds cells agree. -/
lemma ind_eq (mx my a b c d x y x' y' : ℤ)
    (hmx : 0 ≤ mx) (hmy : 0 ≤ my)
    (ha0 : 0 ≤ a) (ha1 : a ≤ mx) (hb0 : 0 ≤ b) (hb1 : b ≤ my)
    (hc0 : 0 ≤ c) (hc1 : c ≤ mx) (hd0 : 0 ≤ d) (hd1 : d ≤ my)
    (hxs : x + x' = a + c) (hx0 : a - 1 ≤ x) (hx1 : x ≤ a + 1)
    (hys : y + y' = b + d) (hy0 : b - 1 ≤ y) (hy1 : y ≤ b + 1) :
    (if wrapP mx my (x, y) = (c, d) then (1 : ℕ) else 0)
      = (if wrapP mx my (x', y') = (a, b) then (1 : ℕ) else 0) := by
  refine if_congr ?_ rfl rfl
  constructor
  · intro h
    exact ((wrapP_eq_symm mx my a b c d x y x' y' hmx hmy ha0 ha1 hb0 hb1 hc0 hc1
      hd0 hd1 hxs hx0 hx1 hys hy0 hy1).mp h.symm).symm
  · intro h
    exact ((wrapP_eq_symm mx my a b c d x y x' y' hmx hmy ha0 ha1 hb0 hb1 hc0 hc1
      hd0 hd1 hxs hx0 hx1 hys hy0 hy1).mpr h.symm).symm

/-- Central symmetry of the wrapped adjacency relation, with multiplicity:
for any two existing cells `p` and `q` of a grid with `0 ≤ max_x` and odd
`max_y ≥ 1`, `q` occurs in `p`'s wrapped neighbour list exactly as often
as `p` occurs in `q`'s. -/
lemma count_nbrs_symm (mx my : ℤ) (hmx : 0 ≤ mx) (hmy : 1 ≤ my)
    (hodd : my % 2 = 1) (p q : ℤ × ℤ)
    (hp : inBounds mx my p) (hq : inBounds mx my q) :
    (nbrsList mx my p).count q = (nbrsList mx my q).count p := by
  obtain ⟨a, b⟩ := p
  obtain ⟨c, d⟩ := q
  obtain ⟨ha0, ha1, hb0, hb1⟩ := hp
  obtain ⟨hc0, hc1, hd0, hd1⟩ := hq
  simp only at ha0 ha1 hb0 hb1 hc0 hc1 hd0 hd1
  have hmy0 : 0 ≤ my := by omega
  rcases Int.emod_two_eq b with hb | hb <;> rcases Int.emod_two_eq d with hd | hd <;>
    simp only [nbrsList, rawNeighbours, deltas, hb, hd] <;> norm_num <;>
    simp only [List.count_cons, List.count_nil, beq_iff_eq]
  · -- b even, d even
    have z1 : (if wrapP mx my (a, b + 1) = (c, d) then (1 : ℕ) else 0) = 0 :=
      ind_zero mx my c d a (b + 1) hmy hodd (by omega) (by omega) (by omega)
    have z2 : (if wrapP mx my (a, b + -1) = (c, d) then (1 : ℕ) else 0) = 0 :=
      ind_zero mx my c d a (b + -1) hmy hodd (by omega) (by omega) (by omega)
    have z3 : (if wrapP mx my (a + -1, b + 1) = (c, d) then (1 : ℕ) else 0) = 0 :=
      ind_zero mx my c d (a + -1) (b + 1) hmy hodd (by omega) (by omega) (by omega)
    have z4 : (if wrapP mx my (a + -1, b + -1) = (c, d) then (1 : ℕ) else 0) = 0 :=
      ind_zero mx my c d (a + -1) (b + -1) hmy hodd (by omega) (by omega) (by omega)
    have w1 : (if wrapP mx my (c, d + 1) = (a, b) then (1 : ℕ) else 0) = 0 :=
      ind_zero mx my a b c (d + 1) hmy hodd (by omega) (by omega) (by omega)
    have w2 : (if wrapP mx my (c, d + -1) = (a, b) then (1 : ℕ) else 0) = 0 :=
      ind_zero mx my a b c (d + -1) hmy hodd (by omega) (by omega) (by omega)
    have w3 : (if wrapP mx my (c + -1, d + 1) = (a, b) then (1 : ℕ) else 0) = 0 :=
      ind_zero mx my a b (c + -1) (d + 1) hmy hodd (by omega) (by omega) (by omega)
    have w4 : (if wrapP mx my (c + -1, d + -1) = (a, b) then (1 : ℕ) else 0) = 0 :=
      ind_zero mx my a b (c + -1) (d + -1) hmy hodd (by omega) (by omega) (by omega)
    have e1 : (if wrapP mx my (a + 1, b) = (c, d) then (1 : ℕ) else 0)
        = (if wrapP mx my (c + -1, d) = (a, b) then (1 : ℕ) else 0) :=
      ind_eq mx my a b c d (a + 1) b (c + -1) d hmx hmy0 ha0 ha1 hb0 hb1 hc0 hc1
        hd0 hd1 (by omega) (by omega) (by omega) (by omega) (by omega) (by omega)
    have e2 : (if wrapP mx my (a + -1, b) = (c, d) then (1 : ℕ) else 0)
        = (if wrapP mx my (c + 1, d) = (a, b) then (1 : ℕ) else 0) :=
      ind_eq mx my a b c d (a + -1) b (c + 1) d hmx hmy0 ha0 ha1 hb0 hb1 hc0 hc1
        hd0 hd1 (by omega) (by omega) (by omega) (by omega) (by omega) (by omega)
    omega
  · -- b even, d odd
    have z1 : (if wrapP mx my (a + 1, b) = (c, d) then (1 : ℕ) else 0) = 0 :=
      ind_zero mx my c d (a + 1) b hmy hodd (by omega) (by omega) (by omega)
    have z2 : (if wrapP mx my (a + -1, b) = (c, d) then (1 : ℕ) else 0) = 0 :=
      ind_zero mx my c d (a + -1) b hmy hodd (by omega) (by omega) (by omega)
    have w1 : (if wrapP mx my (c + 1, d) = (a, b) then (1 : ℕ) else 0) = 0 :=
      ind_zero mx my a b (c + 1) d hmy hodd (by omega) (by omega) (by omega)
    have w2 : (if wrapP mx my (c + -1, d) = (a, b) then (1 : ℕ) else 0) = 0 :=
      ind_zero mx my a b (c + -1) d hmy hodd (by omega) (by omega) (by omega)
    have e1 : (if wrapP mx my (a, b + 1) = (c, d) then (1 : ℕ) else 0)
        = (if wrapP mx my (c, d + -1) = (a, b) then (1 : ℕ) else 0) :=
      ind_eq mx my a b c d a (b + 1) c (d + -1) hmx hmy0 ha0 ha1 hb0 hb1 hc0 hc1
        hd0 hd1 (by omega) (by omega) (by omega) (by omega) (by omega) (by omega)
    have e2 : (if wrapP mx my (a, b + -1) = (c, d) then (1 : ℕ) else 0)
        = (if wrapP mx my (c, d + 1) = (a, b) then (1 : ℕ) else 0) :=
      ind_eq mx my a b c d a (b + -1) c (d + 1) hmx hmy0 ha0 ha1 hb0 hb1 hc0 hc1
        hd0 hd1 (by omega) (by omega) (by omega) (by omega) (by omega) (by omega)
    have e3 : (if wrapP mx my (a + -1, b + 1) = (c, d) then (1 : ℕ) else 0)
        = (if wrapP mx my (c + 1, d + -1) = (a, b) then (1 : ℕ) else 0) :=
      ind_eq mx my a b c d (a + -1) (b + 1) (c + 1) (d + -1) hmx hmy0 ha0 ha1 hb0 hb1
        hc0 hc1 hd0 hd1 (by omega) (by omega) (by omega) (by omega) (by omega) (by omega)
    have e4 : (if wrapP mx my (a + -1, b + -1) = (c, d) then (1 : ℕ) else 0)
        = (if wrapP mx my (c + 1, d + 1) = (a, b) then (1 : ℕ) else 0) :=
      ind_eq mx my a b c d (a + -1) (b + -1) (c + 1) (d + 1) hmx hmy0 ha0 ha1 hb0 hb1
        hc0 hc1 hd0 hd1 (by omega) (by omega) (by omega) (by omega) (by omega) (by omega)
    omega
  · -- b odd, d even
    have z1 : (if wrapP mx my (a + 1, b) = (c, d) then (1 : ℕ) else 0) = 0 :=
      ind_zero mx my c d (a + 1) b hmy hodd (by omega) (by omega) (by omega)
    have z2 : (if wrapP mx my (a + -1, b) = (c, d) then (1 : ℕ) else 0) = 0 :=
      ind_zero mx my c d (a + -1) b hmy hodd (by omega) (by omega) (by omega)
    have w1 : (if wrapP mx my (c + 1, d) = (a, b) then (1 : ℕ) else 0) = 0 :=
      ind_zero mx my a b (c + 1) d hmy hodd (by omega) (by omega) (by omega)
    have w2 : (if wrapP mx my (c + -1, d) = (a, b) then (1 : ℕ) else 0) = 0 :=
      ind_zero mx my a b (c + -1) d hmy hodd (by omega) (by omega) (by omega)
    have e1 : (if wrapP mx my (a + 1, b + 1) = (c, d) then (1 : ℕ) else 0)
        = (if wrapP mx my (c + -1, d + -1) = (a, b) then (1 : ℕ) else 0) :=
      ind_eq mx my a b c d (a + 1) (b + 1) (c + -1) (d + -1) hmx hmy0 ha0 ha1 hb0 hb1
        hc0 hc1 hd0 hd1 (by omega) (by omega) (by omega) (by omega) (by omega) (by omega)
    have e2 : (if wrapP mx my (a + 1, b + -1) = (c, d) then (1 : ℕ) else 0)
        = (if wrapP mx my (c + -1, d + 1) = (a, b) then (1 : ℕ) else 0) :=
      ind_eq mx my a b c d (a + 1) (b + -1) (c + -1) (d + 1) hmx hmy0 ha0 ha1 hb0 hb1
        hc0 hc1 hd0 hd1 (by omega) (by omega) (by omega) (by omega) (by omega) (by omega)
    have e3 : (if wrapP mx my (a, b + 1) = (c, d) then (1 : ℕ) else 0)
        = (if wrapP mx my (c, d + -1) = (a, b) then (1 : ℕ) else 0) :=
      ind_eq mx my a b c d a (b + 1) c (d + -1) hmx hmy0 ha0 ha1 hb0 hb1 hc0 hc1
        hd0 hd1 (by omega) (by omega) (by omega) (by omega) (by omega) (by omega)
    have e4 : (if wrapP mx my (a, b + -1) = (c, d) then (1 : ℕ) else 0)
        = (if wrapP mx my (c, d + 1) = (a, b) then (1 : ℕ) else 0) :=
      ind_eq mx my a b c d a (b + -1) c (d + 1) hmx hmy0 ha0 ha1 hb0 hb1 hc0 hc1
        hd0 hd1 (by omega) (by omega) (by omega) (by omega) (by omega) (by omega)
    omega
  · -- b odd, d odd
    have z1 : (if wrapP mx my (a + 1, b + 1) = (c, d) then (1 : ℕ) else 0) = 0 :=
      ind_zero mx my c d (a + 1) (b + 1) hmy hodd (by omega) (by omega) (by omega)
    have z2 : (if wrapP mx my (a + 1, b + -1) = (c, d) then (1 : ℕ) else 0) = 0 :=
      ind_zero mx my c d (a + 1) (b + -1) hmy hodd (by omega) (by omega) (by omega)
    have z3 : (if wrapP mx my (a, b + 1) = (c, d) then (1 : ℕ) else 0) = 0 :=
      ind_zero mx my c d a (b + 1) hmy hodd (by omega) (by omega) (by omega)
    have z4 : (if wrapP mx my (a, b + -1) = (c, d) then (1 : ℕ) else 0) = 0 :=
      ind_zero mx my c d a (b + -1) hmy hodd (by omega) (by omega) (by omega)
    have w1 : (if wrapP mx my (c + 1, d + 1) = (a, b) then (1 : ℕ) else 0) = 0 :=
      ind_zero mx my a b (c + 1) (d + 1) hmy hodd (by omega) (by omega) (by omega)
    have w2 : (if wrapP mx my (c + 1, d + -1) = (a, b) then (1 : ℕ) else 0) = 0 :=
      ind_zero mx my a b (c + 1) (d + -1) hmy hodd (by omega) (by omega) (by omega)
    have w3 : (if wrapP mx my (c, d + 1) = (a, b) then (1 : ℕ) else 0) = 0 :=
      ind_zero mx my a b c (d + 1) hmy hodd (by omega) (by omega) (by omega)
    have w4 : (if wrapP mx my (c, d + -1) = (a, b) then (1 : ℕ) else 0) = 0 :=
      ind_zero mx my a b c (d + -1) hmy hodd (by omega) (by omega) (by omega)
    have e1 : (if wrapP mx my (a + 1, b) = (c, d) then (1 : ℕ) else 0)
        = (if wrapP mx my (c + -1, d) = (a, b) then (1 : ℕ) else 0) :=
      ind_eq mx my a b c d (a + 1) b (c + -1) d hmx hmy0 ha0 ha1 hb0 hb1 hc0 hc1
        hd0 hd1 (by omega) (by omega) (by omega) (by omega) (by omega) (by omega)
    have e2 : (if wrapP mx my (a + -1, b) = (c, d) then (1 : ℕ) else 0)
        = (if wrapP mx my (c + 1, d) = (a, b) then (1 : ℕ) else 0) :=
      ind_eq mx my a b c d (a + -1) b (c + 1) d hmx hmy0 ha0 ha1 hb0 hb1 hc0 hc1
        hd0 hd1 (by omega) (by omega) (by omega) (by omega) (by omega) (by omega)
    omega

/-- The coordinates populated by `Grid.draw_grid`: `(x, y)` for
`y in range(max_y_coord + 1)` (outer loop) and `x in range(max_x_coord + 1)`
(inner loop). -/
def cellList (mx my : ℤ) : List (ℤ × ℤ) :=
  (List.range (my.toNat + 1)).flatMap
    (fun (j : ℕ) => (List.range (mx.toNat + 1)).map (fun (i : ℕ) => ((i : ℤ), (j : ℤ))))

/-- The state of a `Grid`: the bounds, each hexagon's integer state
(`Hexagon.state`, 0 = dead / 1 = alive), each hexagon's cached live
neighbour count (`Hexagon.count`), and the global `living_count`. -/
structure G where
  mx : ℤ
  my : ℤ
  state : ℤ × ℤ → ℤ
  count : ℤ × ℤ → ℤ
  living : ℤ

/-- A freshly drawn grid: every hexagon dead with `count = 0`
(`Hexagon.__init__`), `living_count = 0`. -/
def initG (mx my : ℤ) : G := ⟨mx, my, fun _ => 0, fun _ => 0, 0⟩

/-- Sum of the states of the wrapped neighbours of `p` — what
`Hexagon.refresh_count` computes. -/
def liveSum (g : G) (p : ℤ × ℤ) : ℤ :=
  ((nbrsList g.mx g.my p).map g.state).sum

/-- Number of entries of `p`'s wrapped neighbour list that are alive. -/
def liveNbrCount (g : G) (p : ℤ × ℤ) : ℕ :=
  (nbrsList g.mx g.my p).countP (fun q => decide (g.state q = 1))

/-- Sum of all cell states (the value `living_count` should hold). -/
def livingSum (g : G) : ℤ := ((cellList g.mx g.my).map g.state).sum

/-- The `Hexagon.state` setter: store the new state, add the delta
`new_state - current_state` to every wrapped neighbour's cached count
(once per occurrence in the neighbour list) and to the global
`living_count`. -/
def setState (g : G) (p : ℤ × ℤ) (v : ℤ) : G :=
  { g with
    state := fun q => if q = p then v else g.state q
    count := fun q => g.count q + (v - g.state p) * ((nbrsList g.mx g.my p).count q : ℤ)
    living := g.living + (v - g.state p) }

/-- `Hexagon.switch_state`: dead becomes alive, alive becomes dead. -/
def toggle (g : G) (p : ℤ × ℤ) : G :=
  if g.state p = 0 then setState g p 1
  else if g.state p = 1 then setState g p 0
  else g

/-- The flip test of `Grid.get_altered_hexes`, exactly in source order:
`(count < 2 or count > 3) and state == 1`, else `count == 3 and state == 0`. -/
def flipCondB (g : G) (p : ℤ × ℤ) : Bool :=
  ((decide (g.count p < 2) || decide (3 < g.count p)) && decide (g.state p = 1))
    || (decide (g.count p = 3) && decide (g.state p = 0))

/-- `Grid.get_altered_hexes`: the cells that will change state this tick. -/
def alteredList (g : G) : List (ℤ × ℤ) :=
  (cellList g.mx g.my).filter (flipCondB g)

/-- The commit phase of `Grid.update`: switch the state of every collected
hexagon. -/
def stepG (g : G) : G := (alteredList g).foldl toggle g

/-- Whether `Grid.update` found any hexagon to flip. -/
def stepChanged (g : G) : Bool := !(alteredList g).isEmpty

/-- `Grid.update` together with its effect on the `running` flag: if no
hexagon flips, `Grid.stop` is called. -/
def updateRun (g : G) (running : Bool) : G × Bool :=
  if (alteredList g).isEmpty then (g, false) else (stepG g, running)

/-- Hexagon states after `Grid.resize_grid`: hexagons surviving the resize
keep their state, freshly drawn ones are dead. -/
def resizeState (g : G) (nmx nmy : ℤ) : ℤ × ℤ → ℤ := fun p =>
  if inBounds nmx nmy p ∧ inBounds g.mx g.my p then g.state p else 0

/-- `Grid.resize_grid`: drop hexagons outside the new bounds, draw dead
hexagons at the new coordinates, and recompute every cached count from the
neighbour states (`Grid.refresh_counts`).  `living_count` is not touched. -/
def resizeG (g : G) (nmx nmy : ℤ) : G :=
  { mx := nmx, my := nmy, state := resizeState g nmx nmy
    count := fun p => ((nbrsList nmx nmy p).map (resizeState g nmx nmy)).sum
    living := g.living }

/-- `Grid.randomise` with the outcome of the `random.random()` draws made
explicit: a cell becomes alive exactly when its draw is `≤ p`. -/
def randomiseG (g : G) (pr : ℚ) (rolls : ℤ × ℤ → ℚ) : G :=
  (cellList g.mx g.my).foldl
    (fun h q => setState h q (if rolls q ≤ pr then 1 else 0)) g

/-- `Grid.clear`: set every hexagon dead. -/
def clearG (g : G) : G :=
  (cellList g.mx g.my).foldl (fun h q => setState h q 0) g

/-- One user-level operation on the grid. -/
inductive Op where
  | toggleCell : ℤ × ℤ → Op
  | clear : Op
  | randomise : ℚ → (ℤ × ℤ → ℚ) → Op
  | step : Op
  | resize : ℤ → ℤ → Op

/-- Apply one operation. -/
def applyOp (g : G) : Op → G
  | .toggleCell p => toggle g p
  | .clear => clearG g
  | .randomise pr rolls => randomiseG g pr rolls
  | .step => stepG g
  | .resize nmx nmy => resizeG g nmx nmy

/-- Apply a sequence of operations. -/
def applySeq (g : G) (ops : List Op) : G := ops.foldl applyOp g

/-- The bounds in force after an operation. -/
def boundsAfter (mx my : ℤ) : Op → ℤ × ℤ
  | .resize nmx nmy => (nmx, nmy)
  | _ => (mx, my)

/-- Validity of one operation at the current bounds: clicks hit an
existing hexagon, and a resize derives bounds the way `Grid.max_x_coord` /
`Grid.max_y_coord` do (`max_x ≥ 0`, `max_y` odd, at least one row). -/
def OpValid (mx my : ℤ) : Op → Prop
  | .toggleCell p => inBounds mx my p
  | .resize nmx nmy => 0 ≤ nmx ∧ 1 ≤ nmy ∧ nmy % 2 = 1
  | _ => True

/-- Validity of a sequence of operations, tracking the bounds. -/
def ValidSeq : ℤ → ℤ → List Op → Prop
  | _, _, [] => True
  | mx, my, op :: rest =>
    OpValid mx my op ∧ ValidSeq (boundsAfter mx my op).1 (boundsAfter mx my op).2 rest

/-- The grid-wide invariant: engine-built bounds, states are bits, and
every cached count equals the sum of the wrapped neighbours' states. -/
def GInv (g : G) : Prop :=
  (0 ≤ g.mx ∧ 1 ≤ g.my ∧ g.my % 2 = 1)
    ∧ (∀ p, g.state p = 0 ∨ g.state p = 1)
    ∧ (∀ p, inBounds g.mx g.my p → g.count p = liveSum g p)

lemma mem_cellList (mx my : ℤ) (hmx : 0 ≤ mx) (hmy : 0 ≤ my) (p : ℤ × ℤ) :
    p ∈ cellList mx my ↔ inBounds mx my p := by
  constructor
  · intro h
    obtain ⟨j, hj, h2⟩ := List.mem_flatMap.mp h
    obtain ⟨i, hi, h3⟩ := List.mem_map.mp h2
    rw [List.mem_range] at hj hi
    cases h3
    simp only [inBounds]
    refine ⟨?_, ?_, ?_, ?_⟩ <;> omega
  · rintro ⟨h1, h2, h3, h4⟩
    apply List.mem_flatMap.mpr
    refine ⟨p.2.toNat, ?_, ?_⟩
    · rw [List.mem_range]
      omega
    · apply List.mem_map.mpr
      refine ⟨p.1.toNat, ?_, ?_⟩
      · rw [List.mem_range]
        omega
      · have hh : ((p.1.toNat : ℤ), (p.2.toNat : ℤ)) = (p.1, p.2) := by
          rw [Prod.mk.injEq]
          constructor <;> omega
        rw [hh]

lemma cellList_nodup (mx my : ℤ) : (cellList mx my).Nodup := by
  unfold cellList
  rw [List.nodup_flatMap]
  constructor
  · intro j _
    refine List.Nodup.map ?_ (List.nodup_range _)
    intro i1 i2 h
    simp only [Prod.mk.injEq] at h
    omega
  · refine (List.pairwise_lt_range _).imp ?_
    intro j1 j2 hlt
    intro x hx1 hx2
    simp only [List.mem_map, List.mem_range] at hx1 hx2
    obtain ⟨i1, _, rfl⟩ := hx1
    obtain ⟨i2, _, h⟩ := hx2
    simp only [Prod.mk.injEq] at h
    omega

lemma cellList_length (mx my : ℤ) :
    (cellList mx my).length = (my.toNat + 1) * (mx.toNat + 1) := by
  unfold cellList
  rw [List.length_flatMap]
  simp [Function.comp_def, List.map_const', List.sum_replicate, mul_comm]

/-- Effect of a pointwise state overwrite on a neighbour-state sum. -/
lemma sum_map_update (l : List (ℤ × ℤ)) (st : ℤ × ℤ → ℤ) (p : ℤ × ℤ) (v : ℤ) :
    (l.map (fun r => if r = p then v else st r)).sum
      = (l.map st).sum + (v - st p) * (l.count p : ℤ) := by
  induction l with
  | nil => simp
  | cons a t ih =>
    simp only [List.map_cons, List.sum_cons, List.count_cons, beq_iff_eq, ih]
    by_cases h : a = p
    · subst h
      simp only [if_pos rfl]
      push_cast
      ring
    · simp only [if_neg h]
      push_cast
      ring

/-- For bit-valued states, a neighbour-state sum counts the alive
entries. -/
lemma sum_map_bits (l : List (ℤ × ℤ)) (st : ℤ × ℤ → ℤ)
    (h : ∀ q, st q = 0 ∨ st q = 1) :
    (l.map st).sum = ((l.countP fun q => decide (st q = 1)) : ℤ) := by
  induction l with
  | nil => simp
  | cons a t ih =>
    simp only [List.map_cons, List.sum_cons, List.countP_cons, ih]
    rcases h a with h0 | h1
    · rw [h0]
      norm_num
    · rw [h1]
      norm_num
      omega

/-- Splitting a sum of differences. -/
lemma sum_map_sub (l : List (ℤ × ℤ)) (f g : ℤ × ℤ → ℤ) :
    (l.map (fun q => f q - g q)).sum = (l.map f).sum - (l.map g).sum := by
  induction l with
  | nil => simp
  | cons a t ih =>
    simp only [List.map_cons, List.sum_cons, ih]
    ring

lemma setState_mx (g : G) (p : ℤ × ℤ) (v : ℤ) : (setState g p v).mx = g.mx := rfl

lemma setState_my (g : G) (p : ℤ × ℤ) (v : ℤ) : (setState g p v).my = g.my := rfl

lemma setState_state (g : G) (p : ℤ × ℤ) (v : ℤ) (q : ℤ × ℤ) :
    (setState g p v).state q = if q = p then v else g.state q := rfl

lemma setState_living (g : G) (p : ℤ × ℤ) (v : ℤ) :
    (setState g p v).living = g.living + (v - g.state p) := rfl

/-- The state setter restores the central cache invariant: the new cached
count of every existing cell again equals the sum of its wrapped
neighbours' states.  This is where adjacency symmetry is used. -/
lemma setState_inv (g : G) (hb : 0 ≤ g.mx ∧ 1 ≤ g.my ∧ g.my % 2 = 1)
    (hinv : ∀ r, inBounds g.mx g.my r → g.count r = liveSum g r)
    (p : ℤ × ℤ) (hp : inBounds g.mx g.my p) (v : ℤ) :
    ∀ q, inBounds g.mx g.my q → (setState g p v).count q = liveSum (setState g p v) q := by
  intro q hq
  have hls : liveSum (setState g p v) q
      = liveSum g q + (v - g.state p) * ((nbrsList g.mx g.my q).count p : ℤ) := by
    unfold liveSum
    have : (setState g p v).mx = g.mx := rfl
    rw [this]
    have : (setState g p v).my = g.my := rfl
    rw [this]
    exact sum_map_update (nbrsList g.mx g.my q) g.state p v
  have hsym := count_nbrs_symm g.mx g.my hb.1 hb.2.1 hb.2.2 p q hp hq
  have hc : (setState g p v).count q
      = g.count q + (v - g.state p) * ((nbrsList g.mx g.my p).count q : ℤ) := rfl
  rw [hc, hls, hinv q hq, hsym]

lemma setState_GInv (g : G) (hg : GInv g) (p : ℤ × ℤ)
    (hp : inBounds g.mx g.my p) (v : ℤ) (hv : v = 0 ∨ v = 1) :
    GInv (setState g p v) := by
  obtain ⟨hb, hst, hinv⟩ := hg
  refine ⟨hb, ?_, ?_⟩
  · intro q
    rw [setState_state]
    by_cases h : q = p
    · rw [if_pos h]
      exact hv
    · rw [if_neg h]
      exact hst q
  · exact setState_inv g hb hinv p hp v

lemma toggle_mx (g : G) (p : ℤ × ℤ) : (toggle g p).mx = g.mx := by
  unfold toggle
  split_ifs <;> rfl

lemma toggle_my (g : G) (p : ℤ × ℤ) : (toggle g p).my = g.my := by
  unfold toggle
  split_ifs <;> rfl

lemma toggle_GInv (g : G) (hg : GInv g) (p : ℤ × ℤ) (hp : inBounds g.mx g.my p) :
    GInv (toggle g p) := by
  unfold toggle
  split_ifs
  · exact setState_GInv g hg p hp 1 (Or.inr rfl)
  · exact setState_GInv g hg p hp 0 (Or.inl rfl)
  · exact hg

/-- A `toggle` only rewrites the state of the toggled cell. -/
lemma toggle_state_other (g : G) (p q : ℤ × ℤ) (h : q ≠ p) :
    (toggle g p).state q = g.state q := by
  unfold toggle
  split_ifs <;> simp [setState_state, if_neg h]

/-- Value at the toggled cell: dead to alive, alive to dead, anything
else untouched. -/
lemma toggle_state_self (g : G) (p : ℤ × ℤ) :
    (toggle g p).state p
      = if g.state p = 0 then 1 else if g.state p = 1 then 0 else g.state p := by
  unfold toggle
  split_ifs with h0 h1 <;> simp [setState_state, h0]

lemma foldl_setState_mx (v : ℤ × ℤ → ℤ) (l : List (ℤ × ℤ)) (g : G) :
    (l.foldl (fun h q => setState h q (v q)) g).mx = g.mx := by
  induction l generalizing g with
  | nil => rfl
  | cons a t ih => exact ih (setState g a (v a))

lemma foldl_setState_my (v : ℤ × ℤ → ℤ) (l : List (ℤ × ℤ)) (g : G) :
    (l.foldl (fun h q => setState h q (v q)) g).my = g.my := by
  induction l generalizing g with
  | nil => rfl
  | cons a t ih => exact ih (setState g a (v a))

/-- Final state after a bulk overwrite pass (`clear` / `randomise`): each
visited cell holds its prescribed value, every other cell is untouched. -/
lemma foldl_setState_state (v : ℤ × ℤ → ℤ) (l : List (ℤ × ℤ)) (hl : l.Nodup)
    (g : G) (p : ℤ × ℤ) :
    (l.foldl (fun h q => setState h q (v q)) g).state p
      = if p ∈ l then v p else g.state p := by
  induction l generalizing g with
  | nil => simp
  | cons a t ih =>
    obtain ⟨ha, ht⟩ := List.nodup_cons.mp hl
    rw [List.foldl_cons, ih ht]
    by_cases hp : p ∈ t
    · rw [if_pos hp, if_pos (List.mem_cons_of_mem a hp)]
    · rw [if_neg hp, setState_state]
      by_cases hpa : p = a
      · subst hpa
        rw [if_pos rfl, if_pos (List.mem_cons_self p t)]
      · rw [if_neg hpa, if_neg (by simp [hpa, hp])]

/-- Effect of a bulk overwrite pass on the global `living_count`. -/
lemma foldl_setState_living (v : ℤ × ℤ → ℤ) (l : List (ℤ × ℤ)) (hl : l.Nodup)
    (g : G) :
    (l.foldl (fun h q => setState h q (v q)) g).living
      = g.living + (l.map (fun q => v q - g.state q)).sum := by
  induction l generalizing g with
  | nil => simp
  | cons a t ih =>
    obtain ⟨ha, ht⟩ := List.nodup_cons.mp hl
    rw [List.foldl_cons, ih ht, setState_living, List.map_cons, List.sum_cons]
    have hmap : t.map (fun q => v q - (setState g a (v a)).state q)
        = t.map (fun q => v q - g.state q) := by
      apply List.map_congr_left
      intro q hq
      rw [setState_state, if_neg (by rintro rfl; exact ha hq)]
    rw [hmap]
    ring

lemma foldl_setState_GInv (v : ℤ × ℤ → ℤ) (hv : ∀ q, v q = 0 ∨ v q = 1)
    (l : List (ℤ × ℤ)) (g : G) (hg : GInv g)
    (hl : ∀ q ∈ l, inBounds g.mx g.my q) :
    GInv (l.foldl (fun h q => setState h q (v q)) g) := by
  induction l generalizing g with
  | nil => exact hg
  | cons a t ih =>
    rw [List.foldl_cons]
    refine ih (setState g a (v a))
      (setState_GInv g hg a (hl a (List.mem_cons_self a t)) (v a) (hv a)) ?_
    intro q hq
    rw [setState_mx, setState_my]
    exact hl q (List.mem_cons_of_mem a hq)

lemma foldl_toggle_mx (l : List (ℤ × ℤ)) (g : G) : (l.foldl toggle g).mx = g.mx := by
  induction l generalizing g with
  | nil => rfl
  | cons a t ih => rw [List.foldl_cons, ih, toggle_mx]

lemma foldl_toggle_my (l : List (ℤ × ℤ)) (g : G) : (l.foldl toggle g).my = g.my := by
  induction l generalizing g with
  | nil => rfl
  | cons a t ih => rw [List.foldl_cons, ih, toggle_my]

lemma foldl_toggle_GInv (l : List (ℤ × ℤ)) (g : G) (hg : GInv g)
    (hl : ∀ q ∈ l, inBounds g.mx g.my q) :
    GInv (l.foldl toggle g) := by
  induction l generalizing g with
  | nil => exact hg
  | cons a t ih =>
    rw [List.foldl_cons]
    refine ih (toggle g a) (toggle_GInv g hg a (hl a (List.mem_cons_self a t))) ?_
    intro q hq
    rw [toggle_mx, toggle_my]
    exact hl q (List.mem_cons_of_mem a hq)

/-- Final state after the commit phase: each collected cell is flipped
(with respect to its pre-commit state), every other cell is untouched.
This holds because the collected cells are pairwise distinct. -/
lemma foldl_toggle_state (l : List (ℤ × ℤ)) (hl : l.Nodup) (g : G) (p : ℤ × ℤ) :
    (l.foldl toggle g).state p
      = if p ∈ l then
          (if g.state p = 0 then 1 else if g.state p = 1 then 0 else g.state p)
        else g.state p := by
  induction l generalizing g with
  | nil => simp
  | cons a t ih =>
    obtain ⟨ha, ht⟩ := List.nodup_cons.mp hl
    rw [List.foldl_cons, ih ht]
    by_cases hpa : p = a
    · subst hpa
      rw [if_neg (fun hc => ha hc), if_pos (List.mem_cons_self p t), toggle_state_self]
    · rw [toggle_state_other g a p hpa]
      by_cases hp : p ∈ t
      · rw [if_pos hp, if_pos (List.mem_cons_of_mem a hp)]
      · rw [if_neg hp, if_neg (by simp [hpa, hp])]

lemma GInv_bounds (g : G) (hg : GInv g) : 0 ≤ g.mx ∧ 0 ≤ g.my := by
  obtain ⟨⟨h1, h2, _⟩, _, _⟩ := hg
  exact ⟨h1, by omega⟩

lemma clearG_GInv (g : G) (hg : GInv g) : GInv (clearG g) := by
  refine foldl_setState_GInv (fun _ => 0) (fun _ => Or.inl rfl) _ g hg ?_
  intro q hq
  exact (mem_cellList g.mx g.my (GInv_bounds g hg).1 (GInv_bounds g hg).2 q).mp hq

lemma randomiseG_GInv (g : G) (hg : GInv g) (pr : ℚ) (rolls : ℤ × ℤ → ℚ) :
    GInv (randomiseG g pr rolls) := by
  refine foldl_setState_GInv (fun q => if rolls q ≤ pr then 1 else 0)
    (fun q => by simp only; split_ifs <;> simp) _ g hg ?_
  intro q hq
  exact (mem_cellList g.mx g.my (GInv_bounds g hg).1 (GInv_bounds g hg).2 q).mp hq

lemma mem_alteredList (g : G) (hmx : 0 ≤ g.mx) (hmy : 0 ≤ g.my) (p : ℤ × ℤ) :
    p ∈ alteredList g
      ↔ inBounds g.mx g.my p
          ∧ (((g.count p < 2 ∨ 3 < g.count p) ∧ g.state p = 1)
              ∨ (g.count p = 3 ∧ g.state p = 0)) := by
  unfold alteredList
  rw [List.mem_filter, mem_cellList g.mx g.my hmx hmy]
  unfold flipCondB
  constructor
  · rintro ⟨h1, h2⟩
    refine ⟨h1, ?_⟩
    simp only [Bool.or_eq_true, Bool.and_eq_true, decide_eq_true_eq] at h2
    tauto
  · rintro ⟨h1, h2⟩
    refine ⟨h1, ?_⟩
    simp only [Bool.or_eq_true, Bool.and_eq_true, decide_eq_true_eq]
    tauto

lemma alteredList_nodup (g : G) : (alteredList g).Nodup :=
  (cellList_nodup g.mx g.my).filter _

lemma stepG_GInv (g : G) (hg : GInv g) : GInv (stepG g) := by
  refine foldl_toggle_GInv _ g hg ?_
  intro q hq
  exact ((mem_alteredList g (GInv_bounds g hg).1 (GInv_bounds g hg).2 q).mp hq).1

lemma resizeG_GInv (g : G) (hg : GInv g) (nmx nmy : ℤ)
    (hb : 0 ≤ nmx ∧ 1 ≤ nmy ∧ nmy % 2 = 1) :
    GInv (resizeG g nmx nmy) := by
  obtain ⟨_, hst, _⟩ := hg
  refine ⟨hb, ?_, ?_⟩
  · intro q
    unfold resizeG resizeState
    simp only
    split_ifs
    · exact hst q
    · exact Or.inl rfl
  · intro q _
    rfl

lemma applyOp_GInv (g : G) (hg : GInv g) (op : Op) (hop : OpValid g.mx g.my op) :
    GInv (applyOp g op)
      ∧ (applyOp g op).mx = (boundsAfter g.mx g.my op).1
      ∧ (applyOp g op).my = (boundsAfter g.mx g.my op).2 := by
  cases op with
  | toggleCell p =>
    exact ⟨toggle_GInv g hg p hop, toggle_mx g p, toggle_my g p⟩
  | clear =>
    exact ⟨clearG_GInv g hg, foldl_setState_mx _ _ g, foldl_setState_my _ _ g⟩
  | randomise pr rolls =>
    exact ⟨randomiseG_GInv g hg pr rolls, foldl_setState_mx _ _ g, foldl_setState_my _ _ g⟩
  | step =>
    exact ⟨stepG_GInv g hg, foldl_toggle_mx _ g, foldl_toggle_my _ g⟩
  | resize nmx nmy =>
    exact ⟨resizeG_GInv g hg nmx nmy hop, rfl, rfl⟩

lemma applySeq_GInv (ops : List Op) : ∀ g : G, GInv g → ValidSeq g.mx g.my ops →
    GInv (applySeq g ops) := by
  induction ops with
  | nil => exact fun g hg _ => hg
  | cons op rest ih =>
    intro g hg hv
    obtain ⟨hop, hrest⟩ := hv
    obtain ⟨hg1, hbx, hby⟩ := applyOp_GInv g hg op hop
    have : ValidSeq (applyOp g op).mx (applyOp g op).my rest := by
      rw [hbx, hby]
      exact hrest
    exact ih (applyOp g op) hg1 this

lemma GInv_init (mx my : ℤ) (hmx : 0 ≤ mx) (hmy : 1 ≤ my) (hodd : my % 2 = 1) :
    GInv (initG mx my) := by
  refine ⟨⟨hmx, hmy, hodd⟩, fun _ => Or.inl rfl, ?_⟩
  intro p _
  unfold initG liveSum
  simp

/-- The even-row neighbour coordinate set asserted by the specification
(claim C2), verbatim. -/
def specEvenRowNbrs (x y : ℤ) : List (ℤ × ℤ) :=
  [(x - 1, y), (x, y - 1), (x, y + 1), (x + 1, y - 1), (x + 1, y), (x + 1, y + 1)]

/-- The odd-row neighbour coordinate set asserted by the specification
(claim C2), verbatim. -/
def specOddRowNbrs (x y : ℤ) : List (ℤ × ℤ) :=
  [(x - 1, y - 1), (x - 1, y), (x - 1, y + 1), (x, y - 1), (x, y + 1), (x + 1, y)]

/-- C2 (counterexample): the claim assigns the first neighbour table to
even rows, but at the even-row cell `(0, 0)` the code does not return the
claimed set: the claimed entry `(x+1, y+1) = (1, 1)` is absent from
`Hexagon.neighbours`' index list. -/
theorem c2_counterexample :
    (0 : ℤ) % 2 = 0
      ∧ ((1 : ℤ), (1 : ℤ)) ∈ specEvenRowNbrs 0 0
      ∧ ((1 : ℤ), (1 : ℤ)) ∉ rawNeighbours (0, 0) := by
  decide

/-- C2 (amended): `Hexagon.neighbours` returns the claim's "even row" set
exactly on odd rows and the claim's "odd row" set exactly on even rows —
the two tables are correct but attached to the opposite parity. -/
theorem c2_amended (x y : ℤ) :
    rawNeighbours (x, y)
      = if y % 2 = 1 then specEvenRowNbrs x y else specOddRowNbrs x y := by
  unfold rawNeighbours deltas specEvenRowNbrs specOddRowNbrs
  rcases Int.emod_two_eq y with h | h <;> simp only [h] <;> norm_num <;> omega

/-- C6: `Grid.wrap_coords` maps `x` to `0` when `x > max_x`, to `max_x`
when `x < 0`, and leaves it unchanged otherwise, independently in each
coordinate; for non-negative bounds the older draft's `wrap_coords`
(which tests `x < 0` first) agrees with it. -/
theorem c6_wrap (x y mx my : ℤ) (hmx : 0 ≤ mx) (hmy : 0 ≤ my) :
    wrapP mx my (x, y)
        = ((if mx < x then 0 else if x < 0 then mx else x),
           (if my < y then 0 else if y < 0 then my else y))
      ∧ wrapPOld mx my (x, y) = wrapP mx my (x, y) := by
  constructor
  · rfl
  · unfold wrapPOld wrapP wrap1Old wrap1
    rw [Prod.mk.injEq]
    constructor <;> split_ifs <;> omega

/-- C6 (witness): concrete wrap of an out-of-bounds pair. -/
theorem c6_witness :
    wrapP 3 2 (5, -1) = ((if (3 : ℤ) < 5 then 0 else if (5 : ℤ) < 0 then 3 else 5),
        (if (2 : ℤ) < -1 then 0 else if (-1 : ℤ) < 0 then 2 else -1))
      ∧ wrapPOld 3 2 (5, -1) = wrapP 3 2 (5, -1) :=
  c6_wrap 5 (-1) 3 2 (by norm_num) (by norm_num)

/-- The parity adjustment at the end of `Grid.max_y_coord`: an even
viewport-derived row bound is decremented. -/
def max_y_adjust (y : ℤ) : ℤ := if y % 2 = 0 then y - 1 else y

/-- C10: every bound produced by `Grid.max_y_coord` is odd; and with an
even bound (adjustment removed, here `max_y = 2`) wrapped adjacency is
asymmetric — `(1, 0)` lists `(0, 2)` as a neighbour but not conversely —
which lets a toggle / resize / toggle sequence drive a cached neighbour
count to `-1`. -/
theorem c10_odd_max_y :
    (∀ y : ℤ, max_y_adjust y % 2 = 1)
      ∧ (((0 : ℤ), (2 : ℤ)) ∈ (rawNeighbours (1, 0)).map (wrapP 2 2)
          ∧ ((1 : ℤ), (0 : ℤ)) ∉ (rawNeighbours (0, 2)).map (wrapP 2 2))
      ∧ (applySeq (initG 2 2)
            [Op.toggleCell (1, 0), Op.resize 2 2, Op.toggleCell (1, 0)]).count (0, 2)
          = -1 := by
  refine ⟨?_, by decide, by decide⟩
  intro y
  unfold max_y_adjust
  split_ifs <;> omega

/-- C3: the evaluate phase of `Grid.update` selects a hexagon exactly when
it is alive with cached count `< 2` or `> 3`, or dead with cached count
`= 3`; an unselected hexagon's state is untouched by the commit phase. -/
theorem c3_flip_rule (g : G) (hmx : 0 ≤ g.mx) (hmy : 0 ≤ g.my) (p : ℤ × ℤ)
    (hp : inBounds g.mx g.my p) :
    (p ∈ alteredList g
        ↔ ((g.state p = 1 ∧ (g.count p < 2 ∨ 3 < g.count p))
            ∨ (g.state p = 0 ∧ g.count p = 3)))
      ∧ (p ∉ alteredList g → (stepG g).state p = g.state p) := by
  constructor
  · rw [mem_alteredList g hmx hmy p]
    constructor
    · rintro ⟨_, h⟩
      tauto
    · intro h
      exact ⟨hp, by tauto⟩
  · intro hne
    unfold stepG
    rw [foldl_toggle_state _ (alteredList_nodup g) g p, if_neg hne]

/-- C3 (witness): on a 3 × 2 grid whose cell `(0, 0)` was clicked alive,
`(0, 0)` has count `0 < 2` and is selected to flip. -/
theorem c3_witness :
    (((0 : ℤ), (0 : ℤ)) ∈ alteredList (toggle (initG 2 1) (0, 0))
        ↔ (((toggle (initG 2 1) (0, 0)).state (0, 0) = 1
              ∧ ((toggle (initG 2 1) (0, 0)).count (0, 0) < 2
                  ∨ 3 < (toggle (initG 2 1) (0, 0)).count (0, 0)))
            ∨ ((toggle (initG 2 1) (0, 0)).state (0, 0) = 0
                ∧ (toggle (initG 2 1) (0, 0)).count (0, 0) = 3)))
      ∧ ((0, 0) ∉ alteredList (toggle (initG 2 1) (0, 0))
          → (stepG (toggle (initG 2 1) (0, 0))).state (0, 0)
              = (toggle (initG 2 1) (0, 0)).state (0, 0)) :=
  c3_flip_rule (toggle (initG 2 1) (0, 0)) (by decide) (by decide) (0, 0) (by decide)

/-- Reference definition following the specification's words (claim C4):
one naive synchronous generation, recomputing every cell's live-neighbour
sum from scratch on the pre-step state. -/
def syncStep (g : G) (p : ℤ × ℤ) : ℤ :=
  if g.state p = 1 ∧ (liveSum g p < 2 ∨ 3 < liveSum g p) then 0
  else if g.state p = 0 ∧ liveSum g p = 3 then 1
  else g.state p

/-- C4: when the cached counts agree with the true neighbour sums, the
two-phase incremental `Grid.update` leaves every existing cell in exactly
the state the naive synchronous rule prescribes — flip decisions are all
taken against the single pre-step snapshot. -/
theorem c4_sync_equiv (g : G) (hmx : 0 ≤ g.mx) (hmy : 0 ≤ g.my)
    (hinv : ∀ r, inBounds g.mx g.my r → g.count r = liveSum g r)
    (p : ℤ × ℤ) (hp : inBounds g.mx g.my p) :
    (stepG g).state p = syncStep g p := by
  unfold stepG syncStep
  rw [foldl_toggle_state _ (alteredList_nodup g) g p]
  have hmem := mem_alteredList g hmx hmy p
  rw [hinv p hp] at hmem
  by_cases hin : p ∈ alteredList g
  · have hcond := (hmem.mp hin).2
    rw [if_pos hin]
    split_ifs <;> omega
  · have hnc : ¬ (((liveSum g p < 2 ∨ 3 < liveSum g p) ∧ g.state p = 1)
        ∨ (liveSum g p = 3 ∧ g.state p = 0)) :=
      fun hc => hin (hmem.mpr ⟨hp, hc⟩)
    rw [if_neg hin]
    split_ifs <;> omega

/-- C4 (witness): concrete agreement of the incremental and the naive
update at cell `(0, 0)` of a clicked 3 × 2 grid. -/
theorem c4_witness :
    (stepG (toggle (initG 2 1) (0, 0))).state (0, 0)
      = syncStep (toggle (initG 2 1) (0, 0)) (0, 0) :=
  c4_sync_equiv (toggle (initG 2 1) (0, 0)) (by decide) (by decide)
    (toggle_GInv (initG 2 1)
      (GInv_init 2 1 (by norm_num) (by norm_num) (by norm_num)) (0, 0) (by decide)).2.2
    (0, 0) (by decide)

/-- The flip rule evaluated on the true (recomputed) neighbour sums. -/
def flipCondLive (g : G) (p : ℤ × ℤ) : Prop :=
  (g.state p = 1 ∧ (liveSum g p < 2 ∨ 3 < liveSum g p))
    ∨ (g.state p = 0 ∧ liveSum g p = 3)

lemma flipCondB_iff (g : G) (p : ℤ × ℤ) (hcount : g.count p = liveSum g p) :
    flipCondB g p = true ↔ flipCondLive g p := by
  unfold flipCondB flipCondLive
  rw [hcount]
  simp only [Bool.or_eq_true, Bool.and_eq_true, decide_eq_true_eq]
  tauto

/-- C5: `Grid.update` finds nothing to flip exactly when no existing cell
satisfies a flip condition on the pre-step state; in that case it stops
the animation and leaves the grid untouched, so every further update
reports no change as well. -/
theorem c5_termination (g : G) (hmx : 0 ≤ g.mx) (hmy : 0 ≤ g.my)
    (hinv : ∀ r, inBounds g.mx g.my r → g.count r = liveSum g r) :
    (stepChanged g = false ↔ ∀ p ∈ cellList g.mx g.my, ¬ flipCondLive g p)
      ∧ (stepChanged g = false → ∀ r : Bool, updateRun g r = (g, false))
      ∧ (stepChanged g = false → ∀ n : ℕ, stepChanged (stepG^[n] g) = false) := by
  have hempty : stepChanged g = false ↔ alteredList g = [] := by
    unfold stepChanged
    rw [Bool.not_eq_false', List.isEmpty_iff]
  have hiff : alteredList g = [] ↔ ∀ p ∈ cellList g.mx g.my, ¬ flipCondLive g p := by
    unfold alteredList
    rw [List.filter_eq_nil_iff]
    constructor
    · intro h p hp hc
      exact h p hp ((flipCondB_iff g p (hinv p ((mem_cellList _ _ hmx hmy p).mp hp))).mpr hc)
    · intro h p hp hc
      exact h p hp ((flipCondB_iff g p (hinv p ((mem_cellList _ _ hmx hmy p).mp hp))).mp hc)
  have hfix : ∀ h : G, alteredList h = [] → stepG h = h := by
    intro h hh
    unfold stepG
    rw [hh]
    rfl
  refine ⟨hempty.trans hiff, ?_, ?_⟩
  · intro hf r
    have he : alteredList g = [] := hempty.mp hf
    unfold updateRun
    rw [if_pos (by rw [List.isEmpty_iff]; exact he)]
  · intro hf n
    have he : alteredList g = [] := hempty.mp hf
    have hall : ∀ k : ℕ, stepG^[k] g = g := by
      intro k
      induction k with
      | zero => rfl
      | succ k ih =>
        rw [Function.iterate_succ_apply', ih]
        exact hfix g he
    rw [hall n]
    exact hf

/-- C5 (witness): on the freshly drawn all-dead 3 × 2 grid, `Grid.update`
finds nothing to flip, stops the animation, and keeps doing so forever. -/
theorem c5_witness :
    (stepChanged (initG 2 1) = false
        ↔ ∀ p ∈ cellList (initG 2 1).mx (initG 2 1).my, ¬ flipCondLive (initG 2 1) p)
      ∧ (stepChanged (initG 2 1) = false
          → ∀ r : Bool, updateRun (initG 2 1) r = (initG 2 1, false))
      ∧ (stepChanged (initG 2 1) = false
          → ∀ n : ℕ, stepChanged (stepG^[n] (initG 2 1)) = false) :=
  c5_termination (initG 2 1) (by decide) (by decide)
    (GInv_init 2 1 (by norm_num) (by norm_num) (by norm_num)).2.2

/-- One instance of wrapped-adjacency symmetry: if a base cell `(a, b)`
reaches a neighbour through the offset `(dx, dy)`, the reverse offset
`(ex, ey) = (-dx, -dy)` is a valid offset at the wrapped neighbour and
wraps back onto `(a, b)`. -/
lemma mem_wrapped_back (mx my a b dx dy ex ey par : ℤ) (hmx : 0 ≤ mx)
    (hmy : 1 ≤ my) (hodd : my % 2 = 1)
    (ha0 : 0 ≤ a) (ha1 : a ≤ mx) (hb0 : 0 ≤ b) (hb1 : b ≤ my)
    (hdx : dx = -1 ∨ dx = 0 ∨ dx = 1) (hdy : dy = -1 ∨ dy = 0 ∨ dy = 1)
    (hex : dx + ex = 0) (hey : dy + ey = 0)
    (hpar : (b + dy) % 2 = par) (hmem : (ex, ey) ∈ deltas par) :
    (a, b) ∈ (rawNeighbours (wrapP mx my (a + dx, b + dy))).map (wrapP mx my) := by
  have hw1 := wrap1_bounds mx (a + dx) hmx
  have hw2 := wrap1_bounds my (b + dy) (by omega)
  have hparw : (wrap1 my (b + dy)) % 2 = (b + dy) % 2 :=
    wrap1_parity my (b + dy) hmy hodd (by omega) (by omega)
  unfold rawNeighbours
  apply List.mem_map.mpr
  refine ⟨((wrapP mx my (a + dx, b + dy)).1 + ex,
           (wrapP mx my (a + dx, b + dy)).2 + ey), ?_, ?_⟩
  · apply List.mem_map.mpr
    refine ⟨(ex, ey), ?_, rfl⟩
    have h2 : (wrapP mx my (a + dx, b + dy)).2 % 2 = par := by
      rw [show (wrapP mx my (a + dx, b + dy)).2 = wrap1 my (b + dy) from rfl, hparw, hpar]
    rw [h2]
    exact hmem
  · have hiff := wrapP_eq_symm mx my a b
      (wrapP mx my (a + dx, b + dy)).1 (wrapP mx my (a + dx, b + dy)).2
      (a + dx) (b + dy)
      ((wrapP mx my (a + dx, b + dy)).1 + ex) ((wrapP mx my (a + dx, b + dy)).2 + ey)
      hmx (by omega) ha0 ha1 hb0 hb1 hw1.1 hw1.2 hw2.1 hw2.2
      (by omega) (by omega) (by omega) (by omega) (by omega) (by omega)
    have hw : ((wrapP mx my (a + dx, b + dy)).1, (wrapP mx my (a + dx, b + dy)).2)
        = wrapP mx my (a + dx, b + dy) := rfl
    exact ((hiff.mp (by rw [hw])).symm)

/-- C7: wrapped adjacency is symmetric for engine bounds (odd `max_y`):
for every existing cell `p` and every raw neighbour index `n` of `p`, the
cell obtained by wrapping `n` lists `p` (wrap-adjusted) among its own
neighbours. -/
theorem c7_adjacency_symmetric (mx my : ℤ) (hmx : 0 ≤ mx) (hmy : 1 ≤ my)
    (hodd : my % 2 = 1) (p n : ℤ × ℤ) (hp : inBounds mx my p)
    (hn : n ∈ rawNeighbours p) :
    p ∈ (rawNeighbours (wrapP mx my n)).map (wrapP mx my) := by
  obtain ⟨a, b⟩ := p
  obtain ⟨ha0, ha1, hb0, hb1⟩ := hp
  simp only at ha0 ha1 hb0 hb1
  unfold rawNeighbours at hn
  obtain ⟨d, hd, hn2⟩ := List.mem_map.mp hn
  subst hn2
  simp only at hd
  rcases Int.emod_two_eq b with hbp | hbp <;> rw [hbp] at hd <;>
    unfold deltas at hd <;> norm_num at hd <;>
    rcases hd with hd | hd | hd | hd | hd | hd <;> subst hd
  · exact mem_wrapped_back mx my a b (-1) (-1) 1 1 1 hmx hmy hodd ha0 ha1 hb0 hb1
      (by norm_num) (by norm_num) (by norm_num) (by norm_num) (by omega) (by decide)
  · exact mem_wrapped_back mx my a b (-1) 0 1 0 0 hmx hmy hodd ha0 ha1 hb0 hb1
      (by norm_num) (by norm_num) (by norm_num) (by norm_num) (by omega) (by decide)
  · exact mem_wrapped_back mx my a b (-1) 1 1 (-1) 1 hmx hmy hodd ha0 ha1 hb0 hb1
      (by norm_num) (by norm_num) (by norm_num) (by norm_num) (by omega) (by decide)
  · exact mem_wrapped_back mx my a b 0 (-1) 0 1 1 hmx hmy hodd ha0 ha1 hb0 hb1
      (by norm_num) (by norm_num) (by norm_num) (by norm_num) (by omega) (by decide)
  · exact mem_wrapped_back mx my a b 0 1 0 (-1) 1 hmx hmy hodd ha0 ha1 hb0 hb1
      (by norm_num) (by norm_num) (by norm_num) (by norm_num) (by omega) (by decide)
  · exact mem_wrapped_back mx my a b 1 0 (-1) 0 0 hmx hmy hodd ha0 ha1 hb0 hb1
      (by norm_num) (by norm_num) (by norm_num) (by norm_num) (by omega) (by decide)
  · exact mem_wrapped_back mx my a b (-1) 0 1 0 1 hmx hmy hodd ha0 ha1 hb0 hb1
      (by norm_num) (by norm_num) (by norm_num) (by norm_num) (by omega) (by decide)
  · exact mem_wrapped_back mx my a b 0 (-1) 0 1 0 hmx hmy hodd ha0 ha1 hb0 hb1
      (by norm_num) (by norm_num) (by norm_num) (by norm_num) (by omega) (by decide)
  · exact mem_wrapped_back mx my a b 0 1 0 (-1) 0 hmx hmy hodd ha0 ha1 hb0 hb1
      (by norm_num) (by norm_num) (by norm_num) (by norm_num) (by omega) (by decide)
  · exact mem_wrapped_back mx my a b 1 (-1) (-1) 1 0 hmx hmy hodd ha0 ha1 hb0 hb1
      (by norm_num) (by norm_num) (by norm_num) (by norm_num) (by omega) (by decide)
  · exact mem_wrapped_back mx my a b 1 0 (-1) 0 1 hmx hmy hodd ha0 ha1 hb0 hb1
      (by norm_num) (by norm_num) (by norm_num) (by norm_num) (by omega) (by decide)
  · exact mem_wrapped_back mx my a b 1 1 (-1) (-1) 0 hmx hmy hodd ha0 ha1 hb0 hb1
      (by norm_num) (by norm_num) (by norm_num) (by norm_num) (by omega) (by decide)

/-- C7 (witness): on a 3 × 2 grid, the neighbour index `(-1, -1)` of cell
`(0, 0)` wraps to `(2, 1)`, whose wrapped neighbour list contains
`(0, 0)`. -/
theorem c7_witness :
    ((0 : ℤ), (0 : ℤ)) ∈ (rawNeighbours (wrapP 2 1 (-1, -1))).map (wrapP 2 1) :=
  c7_adjacency_symmetric 2 1 (by norm_num) (by norm_num) (by norm_num) (0, 0) (-1, -1)
    (by decide) (by decide)

lemma sum_map_one (l : List (ℤ × ℤ)) : (l.map (fun _ => (1 : ℤ))).sum = l.length := by
  induction l with
  | nil => simp
  | cons a t ih =>
    simp only [List.map_cons, List.sum_cons, List.length_cons, ih]
    push_cast
    ring

/-- C8 (counterexample): `random.random()` can return `0.0`, and
`Grid.randomise` compares with `<=`, so with `p = 0` the outcome in which
a cell draws `0.0` sets that cell alive: the grid is not entirely dead for
every outcome of the draws. -/
theorem c8_counterexample :
    (randomiseG (initG 2 1) 0 (fun _ => 0)).state (0, 0) = 1
      ∧ ((0 : ℚ) ≤ 0 ∧ (0 : ℚ) < 1) := by
  refine ⟨by decide, by norm_num⟩

/-- C8 (amended): `randomise(p = 0)` leaves every cell dead and
`living_count = 0` for every outcome whose draws are all non-zero (draws
lie in `[0, 1)`, and a zero draw is set alive because the comparison is
`<=`); `randomise(p = 1)` makes every cell alive and `living_count`
equal to `(max_x + 1) * (max_y + 1)` for every outcome, provided
`living_count` was in sync with the states beforehand. -/
theorem c8_amended (g : G) (hmx : 0 ≤ g.mx) (hmy : 0 ≤ g.my)
    (hliv : g.living = livingSum g) (rolls rollsOne : ℤ × ℤ → ℚ)
    (hpos : ∀ q, 0 < rolls q) (hone : ∀ q, rollsOne q ≤ 1) :
    (∀ p, inBounds g.mx g.my p → (randomiseG g 0 rolls).state p = 0)
      ∧ (randomiseG g 0 rolls).living = 0
      ∧ (∀ p, inBounds g.mx g.my p → (randomiseG g 1 rollsOne).state p = 1)
      ∧ (randomiseG g 1 rollsOne).living = (g.mx + 1) * (g.my + 1) := by
  have hnodup := cellList_nodup g.mx g.my
  refine ⟨?_, ?_, ?_, ?_⟩
  · intro p hp
    unfold randomiseG
    rw [foldl_setState_state _ _ hnodup g p,
      if_pos ((mem_cellList g.mx g.my hmx hmy p).mpr hp),
      if_neg (by have := hpos p; intro hc; exact absurd (lt_of_lt_of_le this hc) (by norm_num))]
  · unfold randomiseG
    rw [foldl_setState_living _ _ hnodup g]
    have hz : (cellList g.mx g.my).map
          (fun q => (if rolls q ≤ 0 then (1 : ℤ) else 0) - g.state q)
        = (cellList g.mx g.my).map (fun q => 0 - g.state q) := by
      apply List.map_congr_left
      intro q _
      rw [if_neg (by have := hpos q; intro hc; exact absurd (lt_of_lt_of_le this hc) (by norm_num))]
    rw [hz, sum_map_sub, hliv]
    unfold livingSum
    simp
  · intro p hp
    unfold randomiseG
    rw [foldl_setState_state _ _ hnodup g p,
      if_pos ((mem_cellList g.mx g.my hmx hmy p).mpr hp), if_pos (hone p)]
  · unfold randomiseG
    rw [foldl_setState_living _ _ hnodup g]
    have ho : (cellList g.mx g.my).map
          (fun q => (if rollsOne q ≤ 1 then (1 : ℤ) else 0) - g.state q)
        = (cellList g.mx g.my).map (fun q => 1 - g.state q) := by
      apply List.map_congr_left
      intro q _
      rw [if_pos (hone q)]
    rw [ho, sum_map_sub, sum_map_one, hliv]
    unfold livingSum
    have hlen : ((cellList g.mx g.my).length : ℤ) = (g.mx + 1) * (g.my + 1) := by
      rw [cellList_length]
      push_cast
      rw [Int.toNat_of_nonneg hmx, Int.toNat_of_nonneg hmy]
      ring
    rw [hlen]
    ring

/-- C8 (witness): concrete all-positive draws with `p = 0` leave the fresh
3 × 2 grid dead with zero live count; any draws in `[0, 1)` with `p = 1`
fill it, giving live count 6. -/
theorem c8_witness :
    (∀ p, inBounds (initG 2 1).mx (initG 2 1).my p
        → (randomiseG (initG 2 1) 0 (fun _ => 1 / 2)).state p = 0)
      ∧ (randomiseG (initG 2 1) 0 (fun _ => 1 / 2)).living = 0
      ∧ (∀ p, inBounds (initG 2 1).mx (initG 2 1).my p
          → (randomiseG (initG 2 1) 1 (fun _ => 1 / 2)).state p = 1)
      ∧ (randomiseG (initG 2 1) 1 (fun _ => 1 / 2)).living
          = ((initG 2 1).mx + 1) * ((initG 2 1).my + 1) :=
  c8_amended (initG 2 1) (by decide) (by decide) (by decide)
    (fun _ => 1 / 2) (fun _ => 1 / 2) (fun _ => by norm_num) (fun _ => by norm_num)

/-- C9 (counterexample): `Grid.randomise` performs no probability
validation: called with `p = 2 ∉ [0, 1]` it raises nothing and mutates the
grid — cell `(0, 0)`, dead beforehand, is set alive. -/
theorem c9_counterexample :
    (randomiseG (initG 2 1) 2 (fun _ => 0)).state (0, 0) = 1
      ∧ (initG 2 1).state (0, 0) = 0
      ∧ ¬ ((2 : ℚ) ≤ 1) := by
  refine ⟨by decide, rfl, by norm_num⟩

/-- C9 (amended): out-of-range probabilities are neither rejected nor do
they leave the grid unchanged — `Grid.randomise` runs normally: with
`p > 1` every cell is set alive (all draws lie below 1), with `p < 0`
every cell is set dead (no draw is negative). -/
theorem c9_amended (g : G) (hmx : 0 ≤ g.mx) (hmy : 0 ≤ g.my) (pr : ℚ)
    (rolls : ℤ × ℤ → ℚ) (hr : ∀ q, 0 ≤ rolls q ∧ rolls q < 1) :
    (1 < pr → ∀ p, inBounds g.mx g.my p → (randomiseG g pr rolls).state p = 1)
      ∧ (pr < 0 → ∀ p, inBounds g.mx g.my p → (randomiseG g pr rolls).state p = 0) := by
  have hnodup := cellList_nodup g.mx g.my
  constructor
  · intro hpr p hp
    unfold randomiseG
    rw [foldl_setState_state _ _ hnodup g p,
      if_pos ((mem_cellList g.mx g.my hmx hmy p).mpr hp),
      if_pos (le_of_lt (lt_trans (hr p).2 (by linarith)))]
  · intro hpr p hp
    unfold randomiseG
    rw [foldl_setState_state _ _ hnodup g p,
      if_pos ((mem_cellList g.mx g.my hmx hmy p).mpr hp),
      if_neg (by have := (hr p).1; intro hc; linarith)]

/-- C9 (witness): `p = 2` fills the fresh 3 × 2 grid (no error, grid
mutated). -/
theorem c9_witness :
    (1 < (2 : ℚ) → ∀ p, inBounds (initG 2 1).mx (initG 2 1).my p
        → (randomiseG (initG 2 1) 2 (fun _ => 1 / 2)).state p = 1)
      ∧ ((2 : ℚ) < 0 → ∀ p, inBounds (initG 2 1).mx (initG 2 1).my p
          → (randomiseG (initG 2 1) 2 (fun _ => 1 / 2)).state p = 0) :=
  c9_amended (initG 2 1) (by decide) (by decide) 2 (fun _ => 1 / 2)
    (fun _ => by norm_num)

/-- C1: starting from a freshly drawn grid with engine bounds
(`max_x ≥ 0`, odd `max_y ≥ 1`), after any valid sequence of
step / randomise / clear / resize / toggle operations, every existing
cell's cached `count` equals the number of entries of its wrapped
neighbour list that are currently alive. -/
theorem c1_count_cache_invariant (mx my : ℤ) (hmx : 0 ≤ mx) (hmy : 1 ≤ my)
    (hodd : my % 2 = 1) (ops : List Op) (hops : ValidSeq mx my ops) (p : ℤ × ℤ)
    (hp : inBounds (applySeq (initG mx my) ops).mx (applySeq (initG mx my) ops).my p) :
    (applySeq (initG mx my) ops).count p
      = (liveNbrCount (applySeq (initG mx my) ops) p : ℤ) := by
  have hg : GInv (applySeq (initG mx my) ops) :=
    applySeq_GInv ops (initG mx my) (GInv_init mx my hmx hmy hodd) hops
  obtain ⟨hb, hst, hinv⟩ := hg
  rw [hinv p hp]
  unfold liveSum liveNbrCount
  exact sum_map_bits _ _ hst

/-- C1 (witness): after clicking `(0, 0)` and one generation on a 3 × 2
grid, the cached count of `(0, 1)` matches its recomputed live-neighbour
count. -/
theorem c1_witness :
    (applySeq (initG 2 1) [Op.toggleCell (0, 0), Op.step]).count (0, 1)
      = (liveNbrCount (applySeq (initG 2 1) [Op.toggleCell (0, 0), Op.step]) (0, 1) : ℤ) :=
  c1_count_cache_invariant 2 1 (by norm_num) (by norm_num) (by norm_num)
    [Op.toggleCell (0, 0), Op.step]
    ⟨show inBounds 2 1 (0, 0) by decide, trivial, trivial⟩ (0, 1) (by decide)
